import Mathlib

/-!
# Vector-memory extension: shallow embedding and verification

This file embeds the chat "vector memory" subsystem of the repository
(`src/unnamed/part_001`, the `vectors` extension module) in Lean 4 and
proves or refutes the frozen specification claims about it.

The embedded parts are:
* the data model (`Item`, `ChatMessage`, query metadata);
* the Collection Differ computed inside `synchronizeChat`
  (lines 254-255 of `src/unnamed/part_001`);
* the Chunker `splitByChunks` (lines 157-173) over a spec-modelled
  `splitRecursive` (the real `splitRecursive` lives in `utils.js`,
  which is not part of the reviewed sources);
* the Synchronizer `synchronizeChat` (lines 225-300) as a pure function
  from an environment (settings snapshot, chat transcript, remote
  responses) to a result, a trace of remote operations, and the final
  state of the re-entrancy guard, plus the driving loop of
  `onVectorizeAllClick` (lines 116-142);
* the Remote Vector Client operations (lines 629-931) as traces
  recording whether a classified validation error is raised before the
  network request is issued;
* the Retrieval Injector `rearrangeChat` (lines 501-579) including the
  faithful semantics of its `for (... of chat) { ...splice... }`
  removal loop, `getPromptText` (lines 585-589), and
  `injectDataBankChunks` (lines 424-446).

Network responses, `substituteParams`, `collapseNewlines` and the hash
function are parameters of the embedding: the claims quantify over them.
-/

namespace Vectors

/-- A vector item as built in `synchronizeChat` line 247:
`{ text: String(substituteParams(x.mes)), hash: getStringHash(substituteParams(x.mes)), index: context.chat.indexOf(x) }`. -/
structure Item where
  text : String
  hash : Int
  index : Int
deriving DecidableEq, Repr

/-- A chat message. The `id` field models JavaScript object identity
(each message of a real chat array is a distinct object); `is_system`
and `mes` are the fields read by the vectors module. -/
structure ChatMessage where
  id : Nat
  is_system : Bool
  name : String
  mes : String
deriving DecidableEq, Repr

/-! ## Collection Differ

`synchronizeChat` lines 254-255:
```
const newVectorItems = hashedMessages.filter(x => !hashesInCollection.includes(x.hash));
const deletedHashes = hashesInCollection.filter(x => !hashedMessages.some(y => y.hash === x));
```
-/

/-- `newVectorItems` of `synchronizeChat` line 254: the local items whose
hash is not in the remote hash list. -/
def toInsertOf (localItems : List Item) (remoteHashes : List Int) : List Item :=
  localItems.filter (fun x => !remoteHashes.contains x.hash)

/-- `deletedHashes` of `synchronizeChat` line 255: the remote hashes for
which no local item carries that hash. -/
def toDeleteOf (localItems : List Item) (remoteHashes : List Int) : List Int :=
  remoteHashes.filter (fun x => !localItems.any (fun y => y.hash == x))

/-! ## Chunker

`splitByChunks` (`src/unnamed/part_001` lines 157-173) splits each item's
text with `splitRecursive` and copies all other fields of the item onto
every chunk. -/

/-- Fuel-driven worker for `chunkChars`; the fuel is an upper bound on
the list length, so the `0, a :: as` fallback is never reached when
called through `chunkChars`. -/
def chunkCharsGo (n : Nat) : Nat → List Char → List (List Char)
  | _, [] => []
  | 0, a :: as => [a :: as]
  | fuel + 1, a :: as => (a :: as.take (n - 1)) :: chunkCharsGo n fuel (as.drop (n - 1))

/-- Splits a character list into consecutive blocks of at most `n`
characters (`n ≥ 1` gives blocks of exactly `n` except possibly the
last). Helper for the spec-modelled `splitRecursive`. -/
def chunkChars (n : Nat) (l : List Char) : List (List Char) :=
  chunkCharsGo n l.length l

/-- Modelled from the spec: `splitRecursive` is defined in `utils.js`,
which is not among the reviewed sources. Spec §4.2: it splits `text`
into ordered pieces each at most `maxSize` characters whose
concatenation reconstructs the input, and a sentinel `maxSize ≤ 0`
means "do not split, return `[text]` whole" (spec §8 round-trip
property). The soft preference for natural boundaries ("when
possible") is abstracted to hard cuts, which satisfy the same
contract. -/
def splitRecursive (text : String) (maxSize : Int) : List String :=
  if maxSize ≤ 0 then [text]
  else (chunkChars maxSize.toNat text.data).map String.mk

/-- `splitByChunks` (`src/unnamed/part_001` lines 157-173): if the
configured `message_chunk_size` is not positive, return the items
unchanged; otherwise split every item's text with `splitRecursive` and
emit one item per chunk via `{ ...item, text: chunk }` (all fields but
`text` copied from the source item). -/
def splitByChunks (message_chunk_size : Int) (items : List Item) : List Item :=
  if message_chunk_size ≤ 0 then items
  else items.flatMap fun item =>
    (splitRecursive item.text message_chunk_size).map fun chunk => { item with text := chunk }

/-! ## Remote Vector Client

Each operation is embedded as a trace: the classified error it raises
before issuing its network request (if any) and whether the request is
issued. Network responses themselves are irrelevant to the
validation claims. -/

/-- Classified error causes attached to thrown errors (spec §7;
`throwIfSourceInvalid`, `src/unnamed/part_001` lines 767-789). -/
inductive ErrorCause where
  | api_key_missing
  | api_url_missing
  | api_model_missing
  | extras_module_missing
deriving DecidableEq, Repr

/-- Configuration read by the client operations: the selected source,
which secrets are stored (`secret_state`), the Ollama/LlamaCpp server
URLs and Ollama model name (empty string models a missing value, i.e.
a falsy `server_urls` entry), the registered Extras modules — all read
by `throwIfSourceInvalid` and the header builders — plus the
`enabled_chats` settings flag checked by `purgeVectorIndex`. -/
structure VectorConfig where
  enabled_chats : Bool
  source : String
  secret_openai : Bool
  secret_makersuite : Bool
  secret_mistralai : Bool
  secret_togetherai : Bool
  secret_nomicai : Bool
  secret_cohere : Bool
  ollama_server_url : String
  llamacpp_server_url : String
  ollama_model : String
  modules : List String
deriving DecidableEq, Repr

/-- `throwIfSourceInvalid` (lines 767-789), translated condition for
condition. -/
def throwIfSourceInvalid (cfg : VectorConfig) : Except ErrorCause Unit :=
  if (cfg.source == "openai" && !cfg.secret_openai)
      || (cfg.source == "palm" && !cfg.secret_makersuite)
      || (cfg.source == "mistral" && !cfg.secret_mistralai)
      || (cfg.source == "togetherai" && !cfg.secret_togetherai)
      || (cfg.source == "nomicai" && !cfg.secret_nomicai)
      || (cfg.source == "cohere" && !cfg.secret_cohere) then
    .error .api_key_missing
  else if (cfg.source == "ollama" && cfg.ollama_server_url == "")
      || (cfg.source == "llamacpp" && cfg.llamacpp_server_url == "") then
    .error .api_url_missing
  else if cfg.source == "ollama" && cfg.ollama_model == "" then
    .error .api_model_missing
  else if cfg.source == "extras" && !cfg.modules.contains "embeddings" then
    .error .extras_module_missing
  else .ok ()

/-- Trace of one Remote Vector Client operation: the classified error
raised before the network request, if any, and whether the network
request was issued. -/
structure OpTrace where
  preError : Option ErrorCause
  requested : Bool
deriving DecidableEq, Repr

/-- `getSavedHashes` (lines 629-645): the list operation issues its
request unconditionally with plain request headers — it never calls
`throwIfSourceInvalid`. -/
def getSavedHashes (_cfg : VectorConfig) : OpTrace := ⟨none, true⟩

/-- `insertVectorItems` (lines 744-762): calls `throwIfSourceInvalid`
first and only issues the request when it does not throw. -/
def insertVectorItems (cfg : VectorConfig) : OpTrace :=
  match throwIfSourceInvalid cfg with
  | .error c => ⟨some c, false⟩
  | .ok _ => ⟨none, true⟩

/-- `deleteVectorItems` (lines 797-811): issues its request
unconditionally — no validation call. -/
def deleteVectorItems (_cfg : VectorConfig) : OpTrace := ⟨none, true⟩

/-- `queryCollection` (lines 819-839): builds source headers via
`getVectorHeaders` (which attaches headers but validates nothing) and
issues the request unconditionally. -/
def queryCollection (_cfg : VectorConfig) : OpTrace := ⟨none, true⟩

/-- `queryMultipleCollections` (lines 849-869): like `queryCollection`,
no validation call. -/
def queryMultipleCollections (_cfg : VectorConfig) : OpTrace := ⟨none, true⟩

/-- `purgeVectorIndex` (lines 907-931): returns early, issuing no
request, when chats vectorization is disabled (lines 908-911);
otherwise issues its request unconditionally — no validation call and
never a classified error. -/
def purgeVectorIndex (cfg : VectorConfig) : OpTrace :=
  if !cfg.enabled_chats then ⟨none, false⟩
  else ⟨none, true⟩

/-- An `openai`-source configuration with chats vectorization enabled
and no stored OpenAI API key. -/
def openaiNoKeyConfig : VectorConfig :=
  { enabled_chats := true,
    source := "openai", secret_openai := false, secret_makersuite := false,
    secret_mistralai := false, secret_togetherai := false, secret_nomicai := false,
    secret_cohere := false, ollama_server_url := "", llamacpp_server_url := "",
    ollama_model := "", modules := [] }

/-! ## Synchronizer -/

/-- A remote vector-store request issued by the Synchronizer, in the
order the code issues them. -/
inductive RemoteOp where
  | list (collectionId : String)
  | insert (collectionId : String) (items : List Item)
  | delete (collectionId : String) (hashes : List Int)
deriving DecidableEq, Repr

/-- Outcome of the insert step of one `synchronizeChat` call:
`insertVectorItems` can throw before its request (failed
`throwIfSourceInvalid`), throw after a non-ok response, or succeed. -/
inductive RequestOutcome where
  | preThrow
  | failed
  | ok
deriving DecidableEq, Repr

/-- Environment of one `synchronizeChat` call: the settings snapshot,
the transcript and external state the call reads, the external
functions it delegates to (`substituteParams` as `subst`,
`getStringHash` as `hash0`, the summarizer as `summarizeText` — a
total text transform), and the remote responses it will receive. -/
structure SyncEnv where
  enabled_chats : Bool
  message_chunk_size : Int
  summarize : Bool
  syncBlocked : Bool
  is_send_press : Bool
  chatId : Option String
  chat : List ChatMessage
  subst : String → String
  hash0 : String → Int
  summarizeText : String → String
  listResponse : Except Unit (List Int)
  insertOutcome : RequestOutcome
  deleteOk : Bool

/-- Outcome of one `synchronizeChat` call: the returned value, the
remote requests issued (in order), and the value of the `syncBlocked`
guard once the call has finished. -/
structure SyncOutcome where
  result : Int
  ops : List RemoteOp
  syncBlockedAfter : Bool
deriving Repr

/-- `hashedMessages` of `synchronizeChat` line 247: non-system messages
mapped to items carrying the substituted text, its hash, and the
message's position in the full chat (`context.chat.indexOf(x)`). -/
def hashedMessagesOf (env : SyncEnv) : List Item :=
  (env.chat.filter fun m => !m.is_system).map fun m =>
    { text := env.subst m.mes
      hash := env.hash0 (env.subst m.mes)
      index := (env.chat.indexOf m : Int) }

/-- Lines 250-252: when summarization is on, each item's `text` is
replaced by its summary; its `hash` (computed at line 247, before
summarization) is unchanged. -/
def summarizedOf (env : SyncEnv) : List Item :=
  if env.summarize then
    (hashedMessagesOf env).map fun it => { it with text := env.summarizeText it.text }
  else hashedMessagesOf env

/-- `synchronizeChat` (`src/unnamed/part_001` lines 225-300) as a pure
function of its environment. Paths, in code order:
* `enabled_chats` off → `-1`, no requests, guard untouched (line 227);
* guard held or generation in progress → `waitUntilCondition` times out
  (in this single-flight model the flag cannot change while the call
  polls) → `-1`, no requests, guard untouched (lines 230-235);
* from here the guard is set and the `finally` at line 298 clears it on
  every path: no chat selected → `-1`; list request failed → caught at
  line 271 → `-1`; `insertVectorItems` throwing (before or after its
  request) or `deleteVectorItems` failing → caught → `-1`;
* otherwise at most `batchSize` new items are chunked and inserted,
  stale hashes are all deleted, and the call returns
  `newVectorItems.length - batchSize` (line 270). -/
def synchronizeChat (env : SyncEnv) (batchSize : Nat) : SyncOutcome :=
  if !env.enabled_chats then ⟨-1, [], env.syncBlocked⟩
  else if env.syncBlocked || env.is_send_press then ⟨-1, [], env.syncBlocked⟩
  else match env.chatId with
    | none => ⟨-1, [], false⟩
    | some chatId =>
      match env.listResponse with
      | .error _ => ⟨-1, [.list chatId], false⟩
      | .ok hashesInCollection =>
        if (toInsertOf (summarizedOf env) hashesInCollection).length > 0
            && decide (env.insertOutcome = .preThrow) then
          ⟨-1, [.list chatId], false⟩
        else if (toInsertOf (summarizedOf env) hashesInCollection).length > 0
            && decide (env.insertOutcome = .failed) then
          ⟨-1, .list chatId ::
            (if (toInsertOf (summarizedOf env) hashesInCollection).length > 0 then
              [.insert chatId (splitByChunks env.message_chunk_size
                ((toInsertOf (summarizedOf env) hashesInCollection).take batchSize))]
            else []), false⟩
        else if (toDeleteOf (summarizedOf env) hashesInCollection).length > 0
            && !env.deleteOk then
          ⟨-1, .list chatId ::
            (if (toInsertOf (summarizedOf env) hashesInCollection).length > 0 then
              [.insert chatId (splitByChunks env.message_chunk_size
                ((toInsertOf (summarizedOf env) hashesInCollection).take batchSize))]
            else [])
            ++ [.delete chatId (toDeleteOf (summarizedOf env) hashesInCollection)], false⟩
        else
          ⟨((toInsertOf (summarizedOf env) hashesInCollection).length : Int) - batchSize,
            .list chatId ::
              (if (toInsertOf (summarizedOf env) hashesInCollection).length > 0 then
                [.insert chatId (splitByChunks env.message_chunk_size
                  ((toInsertOf (summarizedOf env) hashesInCollection).take batchSize))]
              else [])
              ++ (if (toDeleteOf (summarizedOf env) hashesInCollection).length > 0 then
                [.delete chatId (toDeleteOf (summarizedOf env) hashesInCollection)]
              else []), false⟩

/-- The driving loop of `onVectorizeAllClick` (lines 116-142): await
`synchronizeChat`, set `finished = remaining <= 0` (line 126), repeat
while not finished. `envs i` is the environment seen by the `i`-th
call, `calls` the number of calls already made, `fuel` a bound on the
remaining iterations; the value is the total number of
`synchronizeChat` calls performed. -/
def vectorizeAllCalls (batchSize : Nat) (envs : Nat → SyncEnv) : Nat → Nat → Nat
  | 0, calls => calls
  | fuel + 1, calls =>
    if (synchronizeChat (envs calls) batchSize).result ≤ 0 then calls + 1
    else vectorizeAllCalls batchSize envs fuel (calls + 1)

/-- A small healthy environment: chats enabled, guard free, one
non-system message, empty remote collection, all requests succeed. -/
def sampleSyncEnv : SyncEnv :=
  { enabled_chats := true
    message_chunk_size := -1
    summarize := false
    syncBlocked := false
    is_send_press := false
    chatId := some "chat1"
    chat := [⟨0, false, "A", "hello"⟩]
    subst := id
    hash0 := fun s => (s.length : Int)
    summarizeText := id
    listResponse := .ok []
    insertOutcome := .ok
    deleteOk := true }

/-- The sample environment with the re-entrancy guard held by another
in-flight call. -/
def blockedSyncEnv : SyncEnv := { sampleSyncEnv with syncBlocked := true }

/-- The sample environment with four new messages: a successful
batch-5 synchronize over it has exactly `4 - 5 = -1` remaining. -/
def nearlySyncedEnv : SyncEnv :=
  { sampleSyncEnv with
    chat := [⟨0, false, "A", "hello"⟩, ⟨1, false, "B", "worlds"⟩,
             ⟨2, false, "C", "abc"⟩, ⟨3, false, "D", "defg"⟩] }

/-! ## Retrieval Injector -/

/-- Worker for `filterOnlyUnique`, carrying the set of values already
seen. -/
def filterOnlyUniqueAux {α : Type} [DecidableEq α] (seen : List α) : List α → List α
  | [] => []
  | a :: as =>
    if seen.contains a then filterOnlyUniqueAux seen as
    else a :: filterOnlyUniqueAux (a :: seen) as

/-- Modelled from the spec: `onlyUnique` (`utils.js`) is not among the
reviewed sources; it is the keep-first-occurrence filter predicate
(`(value, index, self) => self.indexOf(value) === index`), so
`.filter(onlyUnique)` keeps the first occurrence of each value, in
order. -/
def filterOnlyUnique {α : Type} [DecidableEq α] (l : List α) : List α :=
  filterOnlyUniqueAux [] l

/-- JavaScript `array.slice(-p)`: for `p = 0` this is `slice(0)`, the
whole array; for `p > 0`, the last `min(p, length)` elements
(`rearrangeChat` line 543, `const retainMessages = chat.slice(-settings.protect)`). -/
def jsSliceLast {α : Type} (p : Nat) (l : List α) : List α :=
  if p = 0 then l else l.drop (l.length - p)

/-- The queried-message collection loop of `rearrangeChat` lines
545-554: walk the chat in order; skip retained messages and messages
with empty text; collect a message whose hash is among the query
hashes and not yet collected (the `insertedHashes` set, here the
`inserted` list). -/
def collectQueried (h : ChatMessage → Int) (queryHashes : List Int)
    (retain : List ChatMessage) : List ChatMessage → List Int → List ChatMessage
  | [], _ => []
  | m :: rest, inserted =>
    if retain.contains m || m.mes == "" then collectQueried h queryHashes retain rest inserted
    else if queryHashes.contains (h m) && !inserted.contains (h m) then
      m :: collectQueried h queryHashes retain rest (h m :: inserted)
    else collectQueried h queryHashes retain rest inserted

/-- Fuel-driven worker for `spliceLoop`; the fuel is the initial array
length, which bounds the number of iterations (the index grows by one
per step and the loop ends once it reaches the current length). -/
def spliceLoopGo (queried : List ChatMessage) : Nat → List ChatMessage → Nat → List ChatMessage
  | 0, l, _ => l
  | fuel + 1, l, k =>
    match l[k]? with
    | none => l
    | some m =>
      if queried.contains m then spliceLoopGo queried fuel (l.erase m) (k + 1)
      else spliceLoopGo queried fuel l (k + 1)

/-- The removal loop of `rearrangeChat` lines 561-565:
```
for (const message of chat) {
    if (queriedMessages.includes(message)) {
        chat.splice(chat.indexOf(message), 1);
    }
}
```
JavaScript `for...of` iterates by index over the evolving array; a
`splice` at the current position shifts the next element into the
current slot, and the advancing iterator then skips it.
`splice(indexOf(message), 1)` removes the first occurrence, which is
`List.erase`. -/
def spliceLoop (queried : List ChatMessage) (l : List ChatMessage) : List ChatMessage :=
  spliceLoopGo queried l.length l 0

/-- Reference recursion equivalent to `spliceLoop` on duplicate-free
arrays: a removed element causes the element right after it to be
skipped (kept without being examined). -/
def cleanSplice (q : List ChatMessage) : List ChatMessage → List ChatMessage
  | [] => []
  | a :: rest =>
    if q.contains a then
      match rest with
      | [] => []
      | b :: rest' => b :: cleanSplice q rest'
    else a :: cleanSplice q rest

/-- JavaScript `String.prototype.trim`: strip whitespace from both
ends. Defined on the character list so that it evaluates inside the
kernel. -/
def jsTrim (s : String) : String :=
  String.mk (((s.data.dropWhile Char.isWhitespace).reverse.dropWhile Char.isWhitespace).reverse)

/-- Worker for `replaceFirst`: replace the first occurrence of `pat`
in the scanned list. -/
def replaceFirstAux (pat repl : List Char) : List Char → List Char
  | [] => []
  | a :: rest =>
    if pat.isPrefixOf (a :: rest) then repl ++ (a :: rest).drop pat.length
    else a :: replaceFirstAux pat repl rest

/-- Models `template.replace(/\x7b\x7btext\x7d\x7d/i, text)`
(`rearrangeChat` line 588 and `injectDataBankChunks` line 441):
replace the first occurrence of the placeholder; the `i` regex flag
(case-insensitive match) is abstracted to a literal match. -/
def replaceFirst (s pat repl : String) : String :=
  String.mk (replaceFirstAux pat.data repl.data s.data)

/-- `getPromptText` (lines 585-589): format each queried message as
`name: mes`, collapse newlines (`collapseNewlines` is external, passed
as `collapse`) and trim, join with blank lines, substitute into the
template at the `\x7b\x7btext\x7d\x7d` placeholder, then apply
`substituteParams` (passed as `subst`). -/
def getPromptText (collapse subst : String → String) (template : String)
    (queriedMessages : List ChatMessage) : String :=
  subst (replaceFirst template "\x7b\x7btext\x7d\x7d"
    (String.intercalate "\n\n"
      (queriedMessages.map fun m => jsTrim (collapse (m.name ++ ": " ++ m.mes)))))

/-- Environment of one `rearrangeChat` call, covering its chat-memory
branch (lines 515-574): the settings snapshot, the external functions,
the selected chat, the query text computed by `getQueryText`, and the
hashes returned by `queryCollection` ordered most relevant first. -/
structure RearrangeEnv where
  enabled_chats : Bool
  protect : Nat
  template : String
  hash0 : String → Int
  subst : String → String
  collapse : String → String
  chatId : Option String
  queryText : String
  queryHashes : List Int

/-- Hash of a message as computed at lines 549 and 558:
`getStringHash(substituteParams(message.mes))`. -/
def msgHashOf (env : RearrangeEnv) (m : ChatMessage) : Int :=
  env.hash0 (env.subst m.mes)

/-- Line 540: `const queryHashes = queryResults.hashes.filter(onlyUnique)`. -/
def rearrangeQueryHashes (env : RearrangeEnv) : List Int :=
  filterOnlyUnique env.queryHashes

/-- Line 543: the protected tail `chat.slice(-settings.protect)`. -/
def rearrangeRetain (env : RearrangeEnv) (chat : List ChatMessage) : List ChatMessage :=
  jsSliceLast env.protect chat

/-- Lines 545-554: the queried messages, in transcript order,
deduplicated by hash. -/
def rearrangeQueried (env : RearrangeEnv) (chat : List ChatMessage) : List ChatMessage :=
  collectQueried (msgHashOf env) (rearrangeQueryHashes env) (rearrangeRetain env chat) chat []

/-- Line 558: the in-place sort
`queriedMessages.sort((a, b) => queryHashes.indexOf(hash(b)) - queryHashes.indexOf(hash(a)))`.
JavaScript `Array.prototype.sort` is stable; a stable sort under this
comparator places `a` before `b` exactly when
`indexOf(hash(b)) <= indexOf(hash(a))`, which is what a stable
insertion sort under that relation computes. -/
def rearrangeSorted (env : RearrangeEnv) (chat : List ChatMessage) : List ChatMessage :=
  List.insertionSort
    (fun a b => (rearrangeQueryHashes env).indexOf (msgHashOf env b)
      ≤ (rearrangeQueryHashes env).indexOf (msgHashOf env a))
    (rearrangeQueried env chat)

/-- The chat-memory branch of `rearrangeChat` (lines 515-574) as a pure
function from the transcript to the rearranged transcript and the
injected prompt text (`none` models the slot staying cleared, as done
at line 504). The file and world-info branches (lines 507-513) do not
remove or reorder transcript entries and are outside this model.
Early returns: extension disabled, no chat selected, fewer messages
than `protect` (line 526), or empty query text. Otherwise the queried
messages are collected, sorted, spliced out of the transcript, and —
when any were found — formatted through `getPromptText`. -/
def rearrangeChat (env : RearrangeEnv) (chat : List ChatMessage) :
    List ChatMessage × Option String :=
  if !env.enabled_chats then (chat, none)
  else match env.chatId with
    | none => (chat, none)
    | some _ =>
      if chat.length < env.protect then (chat, none)
      else if env.queryText.length = 0 then (chat, none)
      else if (rearrangeSorted env chat).isEmpty then
        (spliceLoop (rearrangeSorted env chat) chat, none)
      else
        (spliceLoop (rearrangeSorted env chat) chat,
          some (getPromptText env.collapse env.subst env.template (rearrangeSorted env chat)))

/-- Retrieval environment for the concrete rearrangement example:
protect the last message, query hashes `[2, 1]` (most relevant
first), hash = length of the substituted text. -/
def rearrangeEnvEx : RearrangeEnv :=
  { enabled_chats := true
    protect := 1
    template := "Past events:\n\x7b\x7btext\x7d\x7d"
    hash0 := fun s => (s.length : Int)
    subst := id
    collapse := id
    chatId := some "chat1"
    queryText := "q"
    queryHashes := [2, 1] }

/-- Three-message transcript for the rearrangement example: the first
two messages match the query hashes (hash 2 is ranked more relevant
than hash 1), the third is the protected tail. -/
def chatEx : List ChatMessage :=
  [⟨0, false, "A", "aa"⟩, ⟨1, false, "B", "b"⟩, ⟨2, false, "C", "cccc"⟩]

/-- Variant of `rearrangeEnvEx` whose query matches only the first
message, so no two matched messages are adjacent in `chatEx`. -/
def rearrangeEnvNoAdj : RearrangeEnv := { rearrangeEnvEx with queryHashes := [2] }

/-! ## Data Bank injection -/

/-- An entry of a query result's `metadata` array. -/
structure MetaEntry where
  text : String
  index : Int
deriving DecidableEq, Repr

/-- Per-collection processing in `injectDataBankChunks` line 432:
`metadata?.filter(x => x.text)?.sort((a, b) => a.index - b.index)?.map(x => x.text)?.filter(onlyUnique) || []`
— drop entries with empty text, sort by ascending index (stable),
project the texts, deduplicate within this collection. -/
def processCollectionTexts (metadata : List MetaEntry) : List String :=
  filterOnlyUnique
    ((List.insertionSort (fun a b => a.index ≤ b.index)
      (metadata.filter fun x => x.text != "")).map fun x => x.text)

/-- The texts of the injected Data Bank block, collections in result
order (the `for ... in queryResults` loop, lines 430-434, visits keys
in insertion order). -/
def collectedTexts (queryResults : List (String × List MetaEntry)) : List String :=
  queryResults.flatMap fun p => processCollectionTexts p.2

/-- `textResult` built by lines 428-434: per collection, the processed
texts joined with newlines, followed by a blank line. -/
def injectDataBankText (queryResults : List (String × List MetaEntry)) : String :=
  queryResults.foldl
    (fun acc p => acc ++ String.intercalate "\n" (processCollectionTexts p.2) ++ "\n\n") ""

/-- `injectDataBankChunks` (lines 424-446): `none` when no chunk text
was found (the extension prompt slot stays cleared), otherwise the
Data Bank template with its placeholder replaced by the collected
text, run through `substituteParams`. -/
def injectDataBankChunks (subst : String → String) (file_template_db : String)
    (queryResults : List (String × List MetaEntry)) : Option String :=
  let textResult := injectDataBankText queryResults
  if textResult = "" then none
  else some (subst (replaceFirst file_template_db "\x7b\x7btext\x7d\x7d" textResult))

theorem chunkCharsGo_join (n : Nat) :
    ∀ (fuel : Nat) (l : List Char), l.length ≤ fuel → (chunkCharsGo n fuel l).flatten = l := by
  intro fuel
  induction fuel with
  | zero =>
    intro l hl
    cases l with
    | nil => rfl
    | cons a as => simp at hl
  | succ fuel ih =>
    intro l hl
    cases l with
    | nil => rfl
    | cons a as =>
      simp only [chunkCharsGo, List.flatten_cons]
      rw [ih (as.drop (n - 1)) (by simp only [List.length_drop]; simp at hl; omega)]
      simp [List.cons_append, List.take_append_drop]

theorem chunkChars_join (n : Nat) (l : List Char) : (chunkChars n l).flatten = l :=
  chunkCharsGo_join n l.length l le_rfl

theorem chunkCharsGo_length_le (n : Nat) (hn : 1 ≤ n) :
    ∀ (fuel : Nat) (l : List Char), l.length ≤ fuel →
      ∀ c ∈ chunkCharsGo n fuel l, c.length ≤ n := by
  intro fuel
  induction fuel with
  | zero =>
    intro l hl c hc
    cases l with
    | nil => simp [chunkCharsGo] at hc
    | cons a as => simp at hl
  | succ fuel ih =>
    intro l hl c hc
    cases l with
    | nil => simp [chunkCharsGo] at hc
    | cons a as =>
      simp only [chunkCharsGo, List.mem_cons] at hc
      rcases hc with rfl | hc
      · simp only [List.length_cons]
        have := List.length_take_le (n - 1) as
        omega
      · exact ih (as.drop (n - 1))
          (by simp only [List.length_drop]; simp at hl; omega) c hc

theorem chunkChars_length_le (n : Nat) (hn : 1 ≤ n) (l : List Char) :
    ∀ c ∈ chunkChars n l, c.length ≤ n :=
  chunkCharsGo_length_le n hn l.length l le_rfl

/-- C1: the synchronization delta of `synchronizeChat` (lines 254-255)
is correct: `toInsert` is exactly the local items whose hash is absent
from the remote hash list, in local order (a sublist of the local
items); `toDelete` is exactly the remote hashes carried by no local
item, in remote order; and a local item whose hash is already present
remotely contributes to neither set. -/
theorem synchronize_delta_correct (localItems : List Item) (remoteHashes : List Int) :
    (∀ x : Item, x ∈ toInsertOf localItems remoteHashes ↔ x ∈ localItems ∧ x.hash ∉ remoteHashes)
    ∧ (toInsertOf localItems remoteHashes).Sublist localItems
    ∧ (∀ h : Int, h ∈ toDeleteOf localItems remoteHashes ↔
        h ∈ remoteHashes ∧ ∀ x ∈ localItems, x.hash ≠ h)
    ∧ (toDeleteOf localItems remoteHashes).Sublist remoteHashes
    ∧ (∀ x ∈ localItems, x.hash ∈ remoteHashes →
        x ∉ toInsertOf localItems remoteHashes ∧ x.hash ∉ toDeleteOf localItems remoteHashes) := by
  refine ⟨?_, List.filter_sublist _, ?_, List.filter_sublist _, ?_⟩
  · intro x
    simp [toInsertOf, List.mem_filter]
  · intro h
    simp only [toDeleteOf, List.mem_filter, Bool.not_eq_eq_eq_not, Bool.not_true,
      List.any_eq_false, beq_iff_eq]
  · intro x hx hhash
    constructor
    · simp [toInsertOf, List.mem_filter, hhash]
    · simp only [toDeleteOf, List.mem_filter, Bool.not_eq_eq_eq_not, Bool.not_true,
        List.any_eq_false, beq_iff_eq]
      rintro ⟨-, hall⟩
      exact hall x hx rfl

/-- Witness for C1 at the spec §8 example: local items with hashes 1 and
2, remote hashes `[2, 3]`. -/
theorem synchronize_delta_correct_witness :
    (⟨"a", 1, 0⟩ : Item) ∈ toInsertOf [⟨"a", 1, 0⟩, ⟨"b", 2, 1⟩] [2, 3]
    ∧ (3 : Int) ∈ toDeleteOf [⟨"a", 1, 0⟩, ⟨"b", 2, 1⟩] [2, 3]
    ∧ (⟨"b", 2, 1⟩ : Item) ∉ toInsertOf [⟨"a", 1, 0⟩, ⟨"b", 2, 1⟩] [2, 3] := by
  refine ⟨?_, ?_, ?_⟩
  · exact ((synchronize_delta_correct _ _).1 _).2 ⟨by decide, by decide⟩
  · exact ((synchronize_delta_correct _ _).2.2.1 _).2 ⟨by decide, by decide⟩
  · exact ((synchronize_delta_correct _ _).2.2.2.2 _ (by decide) (by decide)).1

/-- C9: with a non-positive chunk size (including the sentinel `-1`),
`splitByChunks` passes every item through whole, unsplit; with a
positive chunk size, every produced chunk has at most `maxSize`
characters and the chunks, concatenated in order, reconstruct the
input text. -/
theorem splitByChunks_sentinel_and_bounds :
    (∀ (maxSize : Int) (items : List Item), maxSize ≤ 0 → splitByChunks maxSize items = items)
    ∧ (∀ (text : String) (maxSize : Int), 0 < maxSize →
        (∀ c ∈ splitRecursive text maxSize, (c.length : Int) ≤ maxSize)
        ∧ ((splitRecursive text maxSize).map String.data).flatten = text.data) := by
  constructor
  · intro maxSize items h
    simp [splitByChunks, h]
  · intro text maxSize h
    have hnot : ¬ maxSize ≤ 0 := by omega
    constructor
    · intro c hc
      simp only [splitRecursive, hnot, if_false, List.mem_map] at hc
      obtain ⟨cs, hcs, rfl⟩ := hc
      have hb : cs.length ≤ maxSize.toNat :=
        chunkChars_length_le maxSize.toNat (by omega) text.data cs hcs
      have hlen : (String.mk cs).length = cs.length := rfl
      rw [hlen]
      omega
    · simp only [splitRecursive, hnot, if_false, List.map_map]
      have : String.data ∘ String.mk = id := rfl
      rw [this, List.map_id]
      exact chunkChars_join _ _

/-- Witness for C9: the sentinel `-1` passes an item through whole, and
chunking `"abcde"` at size 2 yields bounded chunks reassembling the
input. -/
theorem splitByChunks_sentinel_and_bounds_witness :
    splitByChunks (-1) [⟨"ab", 5, 0⟩] = [⟨"ab", 5, 0⟩]
    ∧ (∀ c ∈ splitRecursive "abcde" 2, (c.length : Int) ≤ 2)
    ∧ ((splitRecursive "abcde" 2).map String.data).flatten = "abcde".data := by
  refine ⟨splitByChunks_sentinel_and_bounds.1 (-1) _ (by decide),
    (splitByChunks_sentinel_and_bounds.2 "abcde" 2 (by decide)).1,
    (splitByChunks_sentinel_and_bounds.2 "abcde" 2 (by decide)).2⟩

/-- C10: `splitByChunks` preserves the original item order (the
`(hash, index)` trace of its output is the in-order concatenation,
item by item, of one copy per chunk), and every produced chunk carries
the `hash` and `index` of its source item unchanged — chunks are never
re-hashed from their own text. -/
theorem splitByChunks_preserves_hash_index (message_chunk_size : Int) (items : List Item) :
    ((splitByChunks message_chunk_size items).map fun c => (c.hash, c.index))
      = items.flatMap (fun it =>
          List.replicate (splitRecursive it.text message_chunk_size).length (it.hash, it.index))
    ∧ ∀ c ∈ splitByChunks message_chunk_size items,
        ∃ it ∈ items, c.hash = it.hash ∧ c.index = it.index := by
  constructor
  · by_cases h : message_chunk_size ≤ 0
    · simp only [splitByChunks, if_pos h]
      induction items with
      | nil => rfl
      | cons a as ih =>
        simp only [List.map_cons, List.flatMap_cons, splitRecursive, if_pos h,
          List.length_singleton, List.replicate_one, List.singleton_append, ih]
    · simp only [splitByChunks, h, if_false, List.map_flatMap, List.map_map]
      congr 1
      funext it
      have hconst : ((fun c : Item => (c.hash, c.index)) ∘
          fun chunk => ({ it with text := chunk } : Item)) = fun _ => (it.hash, it.index) := rfl
      rw [hconst, List.map_const']
  · intro c hc
    by_cases h : message_chunk_size ≤ 0
    · simp only [splitByChunks, h, if_true] at hc
      exact ⟨c, hc, rfl, rfl⟩
    · simp only [splitByChunks, h, if_false, List.mem_flatMap, List.mem_map] at hc
      obtain ⟨it, hit, chunk, -, rfl⟩ := hc
      exact ⟨it, hit, rfl, rfl⟩

/-- Witness for C10: chunking a 4-character item at size 2 yields two
chunks, both carrying the source item's hash 7 and index 3. -/
theorem splitByChunks_preserves_hash_index_witness :
    ((splitByChunks 2 [⟨"abcd", 7, 3⟩]).map fun c => (c.hash, c.index)) = [(7, 3), (7, 3)] := by
  have h := (splitByChunks_preserves_hash_index 2 [⟨"abcd", 7, 3⟩]).1
  rw [h]
  decide

/-! ## Helper lemmas -/

theorem contains_eq_true_iff {α : Type} [DecidableEq α] (l : List α) (a : α) :
    l.contains a = true ↔ a ∈ l := by
  simp

theorem contains_eq_false_iff {α : Type} [DecidableEq α] (l : List α) (a : α) :
    l.contains a = false ↔ a ∉ l := by
  simp

theorem mem_filterOnlyUniqueAux {α : Type} [DecidableEq α] :
    ∀ (l seen : List α) (x : α), x ∈ filterOnlyUniqueAux seen l ↔ x ∈ l ∧ x ∉ seen := by
  intro l
  induction l with
  | nil => intro seen x; simp [filterOnlyUniqueAux]
  | cons a as ih =>
    intro seen x
    by_cases h : seen.contains a = true
    · have ha : a ∈ seen := (contains_eq_true_iff seen a).mp h
      simp only [filterOnlyUniqueAux, if_pos h, ih, List.mem_cons]
      constructor
      · rintro ⟨hx, hs⟩
        exact ⟨Or.inr hx, hs⟩
      · rintro ⟨hx | hx, hs⟩
        · exact absurd ha (hx ▸ hs)
        · exact ⟨hx, hs⟩
    · have ha : a ∉ seen := (contains_eq_false_iff seen a).mp (Bool.eq_false_iff.mpr h)
      simp only [filterOnlyUniqueAux, if_neg h, List.mem_cons, ih]
      constructor
      · rintro (rfl | ⟨hx, hs⟩)
        · exact ⟨Or.inl rfl, ha⟩
        · rw [not_or] at hs
          exact ⟨Or.inr hx, hs.2⟩
      · rintro ⟨rfl | hx, hs⟩
        · exact Or.inl rfl
        · by_cases hxa : x = a
          · exact Or.inl hxa
          · refine Or.inr ⟨hx, ?_⟩
            rw [not_or]
            exact ⟨hxa, hs⟩

theorem mem_filterOnlyUnique {α : Type} [DecidableEq α] (l : List α) (x : α) :
    x ∈ filterOnlyUnique l ↔ x ∈ l := by
  simp [filterOnlyUnique, mem_filterOnlyUniqueAux]

theorem nodup_filterOnlyUniqueAux {α : Type} [DecidableEq α] :
    ∀ (l seen : List α), (filterOnlyUniqueAux seen l).Nodup := by
  intro l
  induction l with
  | nil => intro seen; simp [filterOnlyUniqueAux]
  | cons a as ih =>
    intro seen
    by_cases h : seen.contains a = true
    · simpa only [filterOnlyUniqueAux, if_pos h] using ih seen
    · simp only [filterOnlyUniqueAux, if_neg h, List.nodup_cons]
      refine ⟨fun hmem => ?_, ih (a :: seen)⟩
      exact ((mem_filterOnlyUniqueAux as (a :: seen) a).mp hmem).2 (List.mem_cons_self a seen)

theorem nodup_filterOnlyUnique {α : Type} [DecidableEq α] (l : List α) :
    (filterOnlyUnique l).Nodup :=
  nodup_filterOnlyUniqueAux l []

theorem sublist_filterOnlyUniqueAux {α : Type} [DecidableEq α] :
    ∀ (l seen : List α), (filterOnlyUniqueAux seen l).Sublist l := by
  intro l
  induction l with
  | nil => intro seen; simp [filterOnlyUniqueAux]
  | cons a as ih =>
    intro seen
    by_cases h : seen.contains a = true
    · simp only [filterOnlyUniqueAux, if_pos h]
      exact (ih seen).cons a
    · simp only [filterOnlyUniqueAux, if_neg h]
      exact (ih (a :: seen)).cons₂ a

theorem sublist_filterOnlyUnique {α : Type} [DecidableEq α] (l : List α) :
    (filterOnlyUnique l).Sublist l :=
  sublist_filterOnlyUniqueAux l []

theorem cleanSplice_cons_pos_nil (q : List ChatMessage) (a : ChatMessage)
    (h : q.contains a = true) : cleanSplice q [a] = [] := by
  have ha : a ∈ q := (contains_eq_true_iff q a).mp h
  simp [cleanSplice, ha]

theorem cleanSplice_cons_pos_cons (q : List ChatMessage) (a b : ChatMessage)
    (rest' : List ChatMessage) (h : q.contains a = true) :
    cleanSplice q (a :: b :: rest') = b :: cleanSplice q rest' := by
  have ha : a ∈ q := (contains_eq_true_iff q a).mp h
  simp [cleanSplice, ha]

theorem cleanSplice_cons_neg (q : List ChatMessage) (a : ChatMessage)
    (rest : List ChatMessage) (h : q.contains a = false) :
    cleanSplice q (a :: rest) = a :: cleanSplice q rest := by
  have ha : a ∉ q := (contains_eq_false_iff q a).mp h
  cases rest with
  | nil => simp [cleanSplice, ha]
  | cons b rest' => simp [cleanSplice, ha]

theorem cleanSplice_of_disjoint (q : List ChatMessage) :
    ∀ l : List ChatMessage, (∀ m ∈ l, m ∉ q) → cleanSplice q l = l := by
  intro l
  induction l with
  | nil => intro; rfl
  | cons a rest ih =>
    intro hd
    have ha : q.contains a = false :=
      (contains_eq_false_iff q a).mpr (hd a (List.mem_cons_self a rest))
    rw [cleanSplice_cons_neg q a rest ha, ih fun m hm => hd m (List.mem_cons_of_mem a hm)]

theorem cleanSplice_append_right (q : List ChatMessage) :
    ∀ f t : List ChatMessage, (∀ m ∈ t, m ∉ q) →
      cleanSplice q (f ++ t) = cleanSplice q f ++ t := by
  intro f
  induction f using cleanSplice.induct q with
  | case1 =>
    intro t ht
    simpa using cleanSplice_of_disjoint q t ht
  | case2 a hq =>
    intro t ht
    cases t with
    | nil => simp [cleanSplice_cons_pos_nil q a hq]
    | cons b t' =>
      rw [List.cons_append, List.nil_append, cleanSplice_cons_pos_cons q a b t' hq,
        cleanSplice_cons_pos_nil q a hq,
        cleanSplice_of_disjoint q t' fun m hm => ht m (List.mem_cons_of_mem b hm)]
      simp
  | case3 a hq b rest' ih =>
    intro t ht
    rw [List.cons_append, List.cons_append, cleanSplice_cons_pos_cons q a b _ hq,
      cleanSplice_cons_pos_cons q a b rest' hq, ih t ht]
    simp
  | case4 a rest' hq ih =>
    intro t ht
    have hq' : q.contains a = false := Bool.eq_false_iff.mpr hq
    rw [List.cons_append, cleanSplice_cons_neg q a _ hq', cleanSplice_cons_neg q a rest' hq',
      ih t ht]
    simp

theorem cleanSplice_eq_filter (q : List ChatMessage) :
    ∀ l : List ChatMessage, List.Chain' (fun a b => ¬(a ∈ q ∧ b ∈ q)) l →
      cleanSplice q l = l.filter fun m => !q.contains m := by
  intro l
  induction l using cleanSplice.induct q with
  | case1 => intro; rfl
  | case2 a hq =>
    intro hchain
    have ha : a ∈ q := (contains_eq_true_iff q a).mp hq
    rw [cleanSplice_cons_pos_nil q a hq]
    simp [List.filter_cons, ha]
  | case3 a hq b rest' ih =>
    intro hchain
    have hab : ¬(a ∈ q ∧ b ∈ q) := (List.chain'_cons.mp hchain).1
    have ha : a ∈ q := (contains_eq_true_iff q a).mp hq
    have hb : b ∉ q := fun hbq => hab ⟨ha, hbq⟩
    have hchain' : List.Chain' (fun a b => ¬(a ∈ q ∧ b ∈ q)) rest' :=
      ((List.chain'_cons.mp hchain).2).tail
    rw [cleanSplice_cons_pos_cons q a b rest' hq, ih hchain']
    simp [List.filter_cons, ha, hb]
  | case4 a rest' hq ih =>
    intro hchain
    have hq' : q.contains a = false := Bool.eq_false_iff.mpr hq
    have ha : a ∉ q := (contains_eq_false_iff q a).mp hq'
    rw [cleanSplice_cons_neg q a rest' hq', ih hchain.tail]
    simp [List.filter_cons, ha]

theorem spliceLoopGo_eq (q : List ChatMessage) :
    ∀ (fuel : Nat) (l : List ChatMessage) (k : Nat), l.Nodup → l.length - k ≤ fuel →
      spliceLoopGo q fuel l k = l.take k ++ cleanSplice q (l.drop k) := by
  intro fuel
  induction fuel with
  | zero =>
    intro l k hnd hle
    have hk : l.length ≤ k := by omega
    rw [spliceLoopGo, List.take_of_length_le hk, List.drop_of_length_le hk]
    simp [cleanSplice]
  | succ fuel ih =>
    intro l k hnd hle
    cases hk : l[k]? with
    | none =>
      have hlen : l.length ≤ k := by
        by_contra hcon
        push_neg at hcon
        rw [List.getElem?_eq_getElem hcon] at hk
        simp at hk
      simp only [spliceLoopGo, hk]
      rw [List.take_of_length_le hlen, List.drop_of_length_le hlen]
      simp [cleanSplice]
    | some m =>
      obtain ⟨hklt, hkm⟩ := List.getElem?_eq_some_iff.mp hk
      have hdropk : l.drop k = m :: l.drop (k + 1) := by
        rw [List.drop_eq_getElem_cons hklt, hkm]
      have hmem : m ∈ l := hkm ▸ List.getElem_mem hklt
      simp only [spliceLoopGo, hk]
      by_cases hq : q.contains m = true
      · rw [if_pos hq]
        have hsplit : l = l.take k ++ m :: l.drop (k + 1) := by
          conv_lhs => rw [← List.take_append_drop k l]
          rw [hdropk]
        have hnotin : m ∉ l.take k := by
          intro hmemtake
          have hnd2 := hnd
          rw [hsplit, List.nodup_append] at hnd2
          exact hnd2.2.2 hmemtake (List.mem_cons_self m _)
        have herase : l.erase m = l.take k ++ l.drop (k + 1) := by
          conv_lhs => rw [hsplit]
          rw [List.erase_append_right _ hnotin, List.erase_cons_head]
        have hnd' : (l.erase m).Nodup := hnd.erase m
        have hlen' : (l.erase m).length - (k + 1) ≤ fuel := by
          rw [List.length_erase_of_mem hmem]
          omega
        rw [ih (l.erase m) (k + 1) hnd' hlen']
        have h1 : (l.take k).length = k := by
          rw [List.length_take]
          omega
        have hsub1 : k + 1 - k = 1 := by omega
        have htake : (l.erase m).take (k + 1) = l.take k ++ (l.drop (k + 1)).take 1 := by
          rw [herase, List.take_append_eq_append_take,
            List.take_of_length_le (by rw [h1]; omega), h1, hsub1]
        have hdrop2 : (l.erase m).drop (k + 1) = (l.drop (k + 1)).drop 1 := by
          rw [herase, List.drop_append_eq_append_drop,
            List.drop_of_length_le (by rw [h1]; omega), h1, hsub1]
          simp
        rw [htake, hdrop2, hdropk]
        cases hdrop : l.drop (k + 1) with
        | nil =>
          rw [cleanSplice_cons_pos_nil q m hq]
          simp [cleanSplice]
        | cons b rest' =>
          rw [cleanSplice_cons_pos_cons q m b rest' hq]
          simp
      · rw [if_neg hq]
        have hlen' : l.length - (k + 1) ≤ fuel := by omega
        rw [ih l (k + 1) hnd hlen', List.take_succ, hk, hdropk,
          cleanSplice_cons_neg q m _ (Bool.eq_false_iff.mpr hq)]
        simp

theorem spliceLoop_eq_cleanSplice (q l : List ChatMessage) (hnd : l.Nodup) :
    spliceLoop q l = cleanSplice q l := by
  rw [spliceLoop, spliceLoopGo_eq q l.length l 0 hnd (by omega)]
  simp

theorem collectQueried_notin_retain (h : ChatMessage → Int) (qh : List Int)
    (retain : List ChatMessage) :
    ∀ (l : List ChatMessage) (inserted : List Int) (m : ChatMessage),
      m ∈ collectQueried h qh retain l inserted → retain.contains m = false := by
  intro l
  induction l with
  | nil => intro inserted m hm; simp [collectQueried] at hm
  | cons a rest ih =>
    intro inserted m hm
    simp only [collectQueried] at hm
    by_cases h1 : (retain.contains a || a.mes == "") = true
    · rw [if_pos h1] at hm
      exact ih inserted m hm
    · rw [if_neg h1] at hm
      by_cases h2 : (qh.contains (h a) && !inserted.contains (h a)) = true
      · rw [if_pos h2] at hm
        rcases List.mem_cons.mp hm with rfl | hm'
        · have h1' : (retain.contains m || m.mes == "") = false := Bool.eq_false_iff.mpr h1
          exact (Bool.or_eq_false_iff.mp h1').1
        · exact ih (h a :: inserted) m hm'
      · rw [if_neg h2] at hm
        exact ih inserted m hm

theorem foldl_append_eq_join (l : List String) :
    ∀ acc : String, l.foldl (fun a s => a ++ s) acc = acc ++ String.join l := by
  induction l with
  | nil =>
    intro acc
    show acc = acc ++ String.join []
    rw [show String.join [] = "" from rfl, String.append_empty]
  | cons x xs ih =>
    intro acc
    have hjoin : String.join (x :: xs) = x ++ String.join xs := by
      show List.foldl (fun a s => a ++ s) "" (x :: xs) = _
      rw [List.foldl_cons, ih ("" ++ x), String.empty_append]
    rw [List.foldl_cons, ih (acc ++ x), hjoin, String.append_assoc]

theorem injectDataBankText_eq_join (queryResults : List (String × List MetaEntry)) :
    injectDataBankText queryResults
      = String.join (queryResults.map fun p =>
          String.intercalate "\n" (processCollectionTexts p.2) ++ "\n\n") := by
  have hfun : (fun (acc : String) (p : String × List MetaEntry) =>
        acc ++ String.intercalate "\n" (processCollectionTexts p.2) ++ "\n\n")
      = fun (acc : String) (p : String × List MetaEntry) =>
        acc ++ (String.intercalate "\n" (processCollectionTexts p.2) ++ "\n\n") := by
    funext acc p
    rw [String.append_assoc]
  rw [injectDataBankText, hfun,
    ← List.foldl_map (fun p : String × List MetaEntry =>
      String.intercalate "\n" (processCollectionTexts p.2) ++ "\n\n") (fun a s => a ++ s),
    foldl_append_eq_join, String.empty_append]

theorem vectorizeAllCalls_stops (b : Nat) (envs : Nat → SyncEnv) :
    ∀ (k c fuel : Nat), k < fuel →
      (∀ i < k, 0 < (synchronizeChat (envs (c + i)) b).result) →
      (synchronizeChat (envs (c + k)) b).result ≤ 0 →
      vectorizeAllCalls b envs fuel c = c + k + 1 := by
  intro k
  induction k with
  | zero =>
    intro c fuel hf _ hstop
    obtain ⟨fuel', rfl⟩ : ∃ f, fuel = f + 1 := ⟨fuel - 1, by omega⟩
    rw [vectorizeAllCalls, if_pos (by simpa using hstop)]
  | succ k ih =>
    intro c fuel hf hpos hstop
    obtain ⟨fuel', rfl⟩ : ∃ f, fuel = f + 1 := ⟨fuel - 1, by omega⟩
    have h0 : 0 < (synchronizeChat (envs c) b).result := by
      simpa using hpos 0 (by omega)
    rw [vectorizeAllCalls, if_neg (by omega)]
    have hrec := ih (c + 1) fuel' (by omega)
      (fun i hi => by
        have := hpos (i + 1) (by omega)
        rwa [show c + (i + 1) = c + 1 + i by omega] at this)
      (by rwa [show c + 1 + k = c + (k + 1) by omega])
    rw [hrec]
    omega

/-- C2: a successful `synchronizeChat` call (guard free, chat selected,
list/insert/delete requests all succeed) returns exactly
`toInsert.length - batchSize`, which may be negative; and the driving
loop of `onVectorizeAllClick` stops right after the first call whose
return value is `<= 0` (it interprets `<= 0` as fully synchronized). -/
theorem synchronize_return_and_loop :
    (∀ (env : SyncEnv) (b : Nat) (cid : String) (hs : List Int),
      env.enabled_chats = true → env.syncBlocked = false → env.is_send_press = false →
      env.chatId = some cid → env.listResponse = .ok hs →
      env.insertOutcome = .ok → env.deleteOk = true →
      (synchronizeChat env b).result = ((toInsertOf (summarizedOf env) hs).length : Int) - b)
    ∧ (∀ (b : Nat) (envs : Nat → SyncEnv) (fuel k : Nat), k < fuel →
        (∀ i < k, 0 < (synchronizeChat (envs i) b).result) →
        (synchronizeChat (envs k) b).result ≤ 0 →
        vectorizeAllCalls b envs fuel 0 = k + 1) := by
  constructor
  · intro env b cid hs hen hsb hsp hcid hlist hins hdel
    simp [synchronizeChat, hen, hsb, hsp, hcid, hlist, hins, hdel]
  · intro b envs fuel k hf hpos hstop
    have := vectorizeAllCalls_stops b envs k 0 fuel hf
      (fun i hi => by simpa using hpos i hi) (by simpa using hstop)
    simpa using this

/-- Witness for C2: over the sample environment (one new message,
remote collection empty) a batch-5 call returns `1 - 5 = -4`, and the
driving loop performs exactly one call. -/
theorem synchronize_return_and_loop_witness :
    (synchronizeChat sampleSyncEnv 5).result
      = ((toInsertOf (summarizedOf sampleSyncEnv) []).length : Int) - 5
    ∧ vectorizeAllCalls 5 (fun _ => sampleSyncEnv) 1 0 = 1 :=
  ⟨synchronize_return_and_loop.1 sampleSyncEnv 5 "chat1" [] rfl rfl rfl rfl rfl rfl rfl,
    synchronize_return_and_loop.2 5 (fun _ => sampleSyncEnv) 1 0 (by decide)
      (fun i hi => absurd hi (by omega)) (by decide)⟩

/-- C4 (counterexample): the blocked sentinel is `-1` with no remote
requests, but a successful, non-blocked call over `nearlySyncedEnv`
(four new items, batch size 5) also returns `-1` while issuing remote
requests — the sentinel is not distinct from every zero-or-fewer
return value of a successful call. -/
theorem synchronize_sentinel_counterexample :
    (synchronizeChat blockedSyncEnv 5).result = -1
    ∧ (synchronizeChat blockedSyncEnv 5).ops = []
    ∧ blockedSyncEnv.syncBlocked = true
    ∧ (synchronizeChat nearlySyncedEnv 5).result = -1
    ∧ (synchronizeChat nearlySyncedEnv 5).ops ≠ []
    ∧ nearlySyncedEnv.syncBlocked = false ∧ nearlySyncedEnv.insertOutcome = .ok := by
  refine ⟨by decide, by decide, by decide, by decide, by decide, by decide, by decide⟩

/-- C4 (amended): a `synchronizeChat` call that finds the guard held or
a generation in progress returns the sentinel `-1` and issues no
remote request. (The sentinel is distinct from the zero-remaining
return, but coincides with the return of a successful call that had
exactly `batchSize - 1` items left.) -/
theorem synchronize_blocked_noop (env : SyncEnv) (b : Nat)
    (h : env.syncBlocked = true ∨ env.is_send_press = true) :
    (synchronizeChat env b).result = -1 ∧ (synchronizeChat env b).ops = [] := by
  unfold synchronizeChat
  by_cases he : env.enabled_chats
  · have hcond : (env.syncBlocked || env.is_send_press) = true := by
      rcases h with h | h <;> simp [h]
    simp [he, hcond]
  · simp [he]

/-- Witness for the amended C4: the blocked sample environment returns
`-1` and issues nothing. -/
theorem synchronize_blocked_noop_witness :
    (synchronizeChat blockedSyncEnv 5).result = -1
    ∧ (synchronizeChat blockedSyncEnv 5).ops = [] :=
  synchronize_blocked_noop blockedSyncEnv 5 (Or.inl rfl)

/-- C8: the re-entrancy guard is released on every exit path — any
`synchronizeChat` call that starts with the guard free (i.e. the call
itself is the one in flight) leaves `syncBlocked = false` afterwards,
whether it aborted early, failed on any remote request, or
succeeded. -/
theorem syncBlocked_always_released (env : SyncEnv) (b : Nat)
    (h : env.syncBlocked = false) :
    (synchronizeChat env b).syncBlockedAfter = false := by
  unfold synchronizeChat
  repeat' split
  all_goals first | exact h | rfl

/-- Witness for C8 on the sample environment. -/
theorem syncBlocked_always_released_witness :
    (synchronizeChat sampleSyncEnv 5).syncBlockedAfter = false :=
  syncBlocked_always_released sampleSyncEnv 5 rfl

/-- C3 (counterexample): with source `openai` and no stored API key,
the query operation — like list, delete, query-multi, and purge (which
proceeds here since chats vectorization is enabled) — issues its
network request without raising any classified error first, even
though `throwIfSourceInvalid` would have classified the configuration
as `api_key_missing`; only insert validates. -/
theorem client_validate_counterexample :
    queryCollection openaiNoKeyConfig = ⟨none, true⟩
    ∧ getSavedHashes openaiNoKeyConfig = ⟨none, true⟩
    ∧ deleteVectorItems openaiNoKeyConfig = ⟨none, true⟩
    ∧ queryMultipleCollections openaiNoKeyConfig = ⟨none, true⟩
    ∧ purgeVectorIndex openaiNoKeyConfig = ⟨none, true⟩
    ∧ throwIfSourceInvalid openaiNoKeyConfig = .error .api_key_missing := by
  refine ⟨rfl, rfl, rfl, rfl, rfl, rfl⟩

/-- C3 (amended): only the insert operation validates the configured
source before issuing its request — with source `openai` and no
stored key it fails with `api_key_missing` and sends nothing, and in
general it raises exactly the classified cause of
`throwIfSourceInvalid` without a request; the list, delete, query and
query-multi operations issue their request unconditionally, with no
prior validation; purge issues no request when chats vectorization is
disabled and otherwise issues its request without validation, and it
never raises a classified error. -/
theorem client_validate_amended :
    (∀ cfg : VectorConfig, cfg.source = "openai" → cfg.secret_openai = false →
      insertVectorItems cfg = ⟨some .api_key_missing, false⟩)
    ∧ (∀ (cfg : VectorConfig) (e : ErrorCause), throwIfSourceInvalid cfg = .error e →
        insertVectorItems cfg = ⟨some e, false⟩)
    ∧ (∀ cfg : VectorConfig, getSavedHashes cfg = ⟨none, true⟩
        ∧ deleteVectorItems cfg = ⟨none, true⟩ ∧ queryCollection cfg = ⟨none, true⟩
        ∧ queryMultipleCollections cfg = ⟨none, true⟩
        ∧ (cfg.enabled_chats = true → purgeVectorIndex cfg = ⟨none, true⟩)
        ∧ (cfg.enabled_chats = false → purgeVectorIndex cfg = ⟨none, false⟩)
        ∧ (purgeVectorIndex cfg).preError = none) := by
  refine ⟨?_, ?_, fun cfg => ⟨rfl, rfl, rfl, rfl, ?_, ?_, ?_⟩⟩
  · intro cfg h1 h2
    have hthrow : throwIfSourceInvalid cfg = .error .api_key_missing := by
      rw [throwIfSourceInvalid, if_pos]
      simp [h1, h2]
    rw [insertVectorItems, hthrow]
  · intro cfg e he
    rw [insertVectorItems, he]
  · intro h
    rw [purgeVectorIndex, h]
    rfl
  · intro h
    rw [purgeVectorIndex, h]
    rfl
  · unfold purgeVectorIndex
    split
    · rfl
    · rfl

/-- Witness for the amended C3 at the concrete `openai`-without-key
configuration: insert fails fast with the classified cause while
purge (chats vectorization enabled there) still issues its request
with no classified error. -/
theorem client_validate_amended_witness :
    insertVectorItems openaiNoKeyConfig = ⟨some .api_key_missing, false⟩
    ∧ purgeVectorIndex openaiNoKeyConfig = ⟨none, true⟩ :=
  ⟨client_validate_amended.1 openaiNoKeyConfig rfl rfl,
    (client_validate_amended.2.2 openaiNoKeyConfig).2.2.2.2.1 rfl⟩

/-- C5: the protect floor. For any transcript (with distinct message
objects) the last `protect` messages survive every `rearrangeChat`
call as the final suffix of the result, unremoved and in order,
regardless of the query results; and when fewer than `protect`
messages exist the call returns the transcript unchanged with no
injection (no error). -/
theorem rearrange_protect_floor (env : RearrangeEnv) (chat : List ChatMessage)
    (hnd : chat.Nodup) :
    (∃ front, (rearrangeChat env chat).1
        = front ++ chat.drop (chat.length - env.protect))
    ∧ (chat.length < env.protect → rearrangeChat env chat = (chat, none)) := by
  have htrivial : ∃ front, chat = front ++ chat.drop (chat.length - env.protect) :=
    ⟨chat.take (chat.length - env.protect), (List.take_append_drop _ _).symm⟩
  have hmain : ∃ front, spliceLoop (rearrangeSorted env chat) chat
      = front ++ chat.drop (chat.length - env.protect) := by
    rcases Nat.eq_zero_or_pos env.protect with hp | hp
    · refine ⟨spliceLoop (rearrangeSorted env chat) chat, ?_⟩
      rw [hp, Nat.sub_zero, List.drop_length, List.append_nil]
    · have hretain : rearrangeRetain env chat
          = chat.drop (chat.length - env.protect) := by
        rw [rearrangeRetain, jsSliceLast, if_neg (by omega)]
      have hdisj : ∀ m ∈ chat.drop (chat.length - env.protect),
          m ∉ rearrangeSorted env chat := by
        intro m hmt hms
        have hmq : m ∈ rearrangeQueried env chat :=
          (List.perm_insertionSort _ (rearrangeQueried env chat)).mem_iff.mp hms
        have hcontains := collectQueried_notin_retain (msgHashOf env)
          (rearrangeQueryHashes env) (rearrangeRetain env chat) chat [] m hmq
        rw [hretain, contains_eq_false_iff] at hcontains
        exact hcontains hmt
      refine ⟨cleanSplice (rearrangeSorted env chat)
        (chat.take (chat.length - env.protect)), ?_⟩
      have hsplitchat : cleanSplice (rearrangeSorted env chat) chat
          = cleanSplice (rearrangeSorted env chat)
              (chat.take (chat.length - env.protect)
                ++ chat.drop (chat.length - env.protect)) := by
        rw [List.take_append_drop]
      rw [spliceLoop_eq_cleanSplice _ _ hnd, hsplitchat,
        cleanSplice_append_right _ _ _ hdisj]
  constructor
  · unfold rearrangeChat
    split
    · exact htrivial
    · split
      · exact htrivial
      · split
        · exact htrivial
        · split
          · exact htrivial
          · split
            · exact hmain
            · exact hmain
  · intro hlt
    unfold rearrangeChat
    repeat' split
    all_goals rfl

/-- Witness for C5 at the concrete example (protect 1, three
messages): the protected last message is the final suffix of the
rearranged transcript. -/
theorem rearrange_protect_floor_witness :
    (∃ front, (rearrangeChat rearrangeEnvEx chatEx).1
        = front ++ chatEx.drop (chatEx.length - rearrangeEnvEx.protect))
    ∧ (chatEx.length < rearrangeEnvEx.protect →
        rearrangeChat rearrangeEnvEx chatEx = (chatEx, none)) :=
  rearrange_protect_floor rearrangeEnvEx chatEx (by decide)

/-- C6 (counterexample): with query hashes `[2, 1]` (hash 2 the most
relevant) over messages `A: "aa"` (hash 2) and `B: "b"` (hash 1), the
injected block is `"B: b\n\nA: aa"` — the most relevant message comes
last, not first — and the matched message `B` is still in the
rearranged transcript: the removal loop skipped it because it
directly followed the removed message `A`. -/
theorem rearrange_order_counterexample :
    rearrangeChat rearrangeEnvEx chatEx
      = ([⟨1, false, "B", "b"⟩, ⟨2, false, "C", "cccc"⟩],
        some "Past events:\nB: b\n\nA: aa")
    ∧ rearrangeSorted rearrangeEnvEx chatEx
      = [⟨1, false, "B", "b"⟩, ⟨0, false, "A", "aa"⟩]
    ∧ (rearrangeQueryHashes rearrangeEnvEx).indexOf
        (msgHashOf rearrangeEnvEx ⟨0, false, "A", "aa"⟩) = 0
    ∧ (⟨1, false, "B", "b"⟩ : ChatMessage) ∈ (rearrangeChat rearrangeEnvEx chatEx).1 := by
  refine ⟨by decide, by decide, by decide, by decide⟩

/-- C6 (amended): in single-collection chat-memory retrieval the
matched messages (outside the protected tail, deduplicated by hash)
are sorted by descending `indexOf` into the query-hash list — i.e. by
ascending relevance, most relevant last — and injected as one
concatenated block; the removal pass deletes each matched message
from the transcript provided no two matched messages are adjacent
(when they are, the splice-while-iterating loop keeps the second). -/
theorem rearrange_order_and_removal_amended (env : RearrangeEnv)
    (chat : List ChatMessage) (hnd : chat.Nodup) (hen : env.enabled_chats = true)
    (cid : String) (hcid : env.chatId = some cid)
    (hlen : ¬ chat.length < env.protect) (hqt : ¬ env.queryText.length = 0)
    (hne : (rearrangeSorted env chat).isEmpty = false)
    (hchain : List.Chain' (fun a b =>
      ¬(a ∈ rearrangeSorted env chat ∧ b ∈ rearrangeSorted env chat)) chat) :
    (rearrangeChat env chat).1
      = chat.filter (fun m => !(rearrangeSorted env chat).contains m)
    ∧ List.Sorted (fun a b => (rearrangeQueryHashes env).indexOf (msgHashOf env b)
        ≤ (rearrangeQueryHashes env).indexOf (msgHashOf env a))
        (rearrangeSorted env chat)
    ∧ (rearrangeChat env chat).2
      = some (getPromptText env.collapse env.subst env.template
          (rearrangeSorted env chat)) := by
  have hrw : rearrangeChat env chat
      = (spliceLoop (rearrangeSorted env chat) chat,
        some (getPromptText env.collapse env.subst env.template
          (rearrangeSorted env chat))) := by
    unfold rearrangeChat
    rw [if_neg (by simp [hen]), hcid]
    rw [if_neg hlen, if_neg hqt, if_neg (by simp [hne])]
  refine ⟨?_, ?_, by rw [hrw]⟩
  · rw [hrw]
    show spliceLoop (rearrangeSorted env chat) chat = _
    rw [spliceLoop_eq_cleanSplice _ _ hnd, cleanSplice_eq_filter _ _ hchain]
  · haveI : IsTotal ChatMessage (fun a b =>
        (rearrangeQueryHashes env).indexOf (msgHashOf env b)
          ≤ (rearrangeQueryHashes env).indexOf (msgHashOf env a)) :=
      ⟨fun a b => le_total _ _⟩
    haveI : IsTrans ChatMessage (fun a b =>
        (rearrangeQueryHashes env).indexOf (msgHashOf env b)
          ≤ (rearrangeQueryHashes env).indexOf (msgHashOf env a)) :=
      ⟨fun _ _ _ hab hbc => le_trans hbc hab⟩
    exact List.sorted_insertionSort _ _

/-- Witness for the amended C6: with a query matching only the first
message (no adjacent matches), the matched message is removed, the
transcript becomes the filter of unmatched messages, and the block is
injected. -/
theorem rearrange_order_and_removal_amended_witness :
    (rearrangeChat rearrangeEnvNoAdj chatEx).1
      = chatEx.filter (fun m => !(rearrangeSorted rearrangeEnvNoAdj chatEx).contains m)
    ∧ List.Sorted (fun a b =>
        (rearrangeQueryHashes rearrangeEnvNoAdj).indexOf (msgHashOf rearrangeEnvNoAdj b)
          ≤ (rearrangeQueryHashes rearrangeEnvNoAdj).indexOf (msgHashOf rearrangeEnvNoAdj a))
        (rearrangeSorted rearrangeEnvNoAdj chatEx)
    ∧ (rearrangeChat rearrangeEnvNoAdj chatEx).2
      = some (getPromptText rearrangeEnvNoAdj.collapse rearrangeEnvNoAdj.subst
          rearrangeEnvNoAdj.template (rearrangeSorted rearrangeEnvNoAdj chatEx)) :=
  rearrange_order_and_removal_amended rearrangeEnvNoAdj chatEx (by decide) rfl
    "chat1" rfl (by decide) (by decide) (by decide)
    (by
      have hs : rearrangeSorted rearrangeEnvNoAdj chatEx
          = [⟨0, false, "A", "aa"⟩] := by decide
      refine List.chain'_cons.mpr ⟨?_, List.chain'_cons.mpr
        ⟨?_, List.chain'_singleton _⟩⟩
      · rintro ⟨-, hb⟩
        rw [hs] at hb
        exact absurd hb (by decide)
      · rintro ⟨ha, -⟩
        rw [hs] at ha
        exact absurd ha (by decide))

/-- C7 (counterexample): two collections each containing the text
`"dup"` — the injected block contains `"dup"` twice (once per
collection): cross-collection duplicates are not removed. -/
theorem dataBank_dedup_counterexample :
    collectedTexts [("c1", [⟨"dup", 0⟩]), ("c2", [⟨"dup", 0⟩])] = ["dup", "dup"]
    ∧ (collectedTexts [("c1", [⟨"dup", 0⟩]), ("c2", [⟨"dup", 0⟩])]).count "dup" = 2
    ∧ injectDataBankText [("c1", [⟨"dup", 0⟩]), ("c2", [⟨"dup", 0⟩])]
      = "dup\n\ndup\n\n" := by
  refine ⟨by decide, by decide, by decide⟩

/-- C7 (amended): the injected text concatenates per-collection blocks
(texts with non-empty content, sorted by ascending original index,
deduplicated within the collection) separated — and also terminated —
by a blank line; deduplication is per collection only: a text present
in two collections appears once per collection in the combined
sequence. -/
theorem dataBank_dedup_amended :
    (∀ metadata : List MetaEntry, (processCollectionTexts metadata).Nodup)
    ∧ (∀ metadata : List MetaEntry,
        List.Sorted (fun a b => a.index ≤ b.index)
          (List.insertionSort (fun a b => a.index ≤ b.index)
            (metadata.filter fun x => x.text != ""))
        ∧ (processCollectionTexts metadata).Sublist
            ((List.insertionSort (fun a b => a.index ≤ b.index)
              (metadata.filter fun x => x.text != "")).map fun x => x.text))
    ∧ (∀ queryResults : List (String × List MetaEntry),
        injectDataBankText queryResults
          = String.join (queryResults.map fun p =>
              String.intercalate "\n" (processCollectionTexts p.2) ++ "\n\n"))
    ∧ (∀ (id1 id2 : String) (md1 md2 : List MetaEntry) (t : String),
        t ∈ processCollectionTexts md1 → t ∈ processCollectionTexts md2 →
        2 ≤ (collectedTexts [(id1, md1), (id2, md2)]).count t) := by
  refine ⟨fun md => nodup_filterOnlyUnique _,
    fun md => ⟨?_, sublist_filterOnlyUnique _⟩, injectDataBankText_eq_join, ?_⟩
  · haveI : IsTotal MetaEntry (fun a b => a.index ≤ b.index) := ⟨fun a b => le_total _ _⟩
    haveI : IsTrans MetaEntry (fun a b => a.index ≤ b.index) := ⟨fun _ _ _ => le_trans⟩
    exact List.sorted_insertionSort _ _
  · intro id1 id2 md1 md2 t h1 h2
    have hc : collectedTexts [(id1, md1), (id2, md2)]
        = processCollectionTexts md1 ++ processCollectionTexts md2 := by
      simp [collectedTexts]
    rw [hc, List.count_append]
    have c1 : 0 < (processCollectionTexts md1).count t := List.count_pos_iff.mpr h1
    have c2 : 0 < (processCollectionTexts md2).count t := List.count_pos_iff.mpr h2
    omega

/-- Witness for the amended C7: the duplicated text is counted twice
across two collections, and a single collection's processed texts are
duplicate-free. -/
theorem dataBank_dedup_amended_witness :
    2 ≤ (collectedTexts [("c1", [⟨"dup", 0⟩]), ("c2", [⟨"dup", 0⟩])]).count "dup"
    ∧ (processCollectionTexts [⟨"dup", 0⟩]).Nodup :=
  ⟨dataBank_dedup_amended.2.2.2 "c1" "c2" [⟨"dup", 0⟩] [⟨"dup", 0⟩] "dup"
      (by decide) (by decide),
    dataBank_dedup_amended.1 [⟨"dup", 0⟩]⟩
